import Mathlib

/-!
Shallow embedding of the Mandelbrot renderer (src/main.rs) and proofs about it.

Modelling conventions:
* Rust `f64`/`f32` arithmetic is modelled exactly: the escape loop only uses
  field operations, so its state is kept in `ℚ` (computable, decidable); the
  smooth-coloring step uses `log2` and is modelled over `ℝ` with `Real.logb 2`.
* `(e) as u64` on a nonnegative float truncates, and on a negative float
  saturates to 0; `(e) as usize` and `(e) as u8` behave the same way, the
  latter also saturating above at its maximum.  `f64::fract` is
  `self - self.trunc()` with truncation toward zero.
* The external crate call `interpolation::lerp` is not part of src/.
  Modelled from the spec: "channel = round(lo + (hi - lo) * shaped), clamped
  /rounded to the 8-bit integer range" together with the design note
  "Implicit channel rounding via truncating casts", i.e.
  `lerp a b t = (a + (b - a) * t)` followed by the saturating truncating
  cast to `u8`.
-/

namespace Mandelbrot

/-- The render constants of src/main.rs. -/
def WIDTH : Nat := 1920

/-- Pixel height constant of src/main.rs. -/
def HEIGHT : Nat := 1080

/-- Maximum iteration count; in the source a `f64` constant `32.0`, compared
against an iteration counter that increases by exactly `1.0` per pass, so it
is modelled as the natural number `32`. -/
def MAX_ITERATIONS : Nat := 32

/-- Rust truncation toward zero of a float (the rounding used by every
`as`-cast from a float to an integer type): floor for nonnegative values,
ceiling for negative ones. -/
def f64Trunc {K : Type*} [LinearOrderedField K] [FloorRing K] (r : K) : ℤ :=
  if 0 ≤ r then ⌊r⌋ else ⌈r⌉

/-- Rust `as u8` saturating cast from a float: truncate toward zero, clamp
into `[0, 255]`. -/
def toU8 {K : Type*} [LinearOrderedField K] [FloorRing K] (r : K) : Fin 256 :=
  ⟨min (f64Trunc r).toNat 255, by omega⟩

/-- Rust `f64::fract`: `self - self.trunc()`.  Negative for negative inputs. -/
def rustFract {K : Type*} [LinearOrderedField K] [FloorRing K] (r : K) : K :=
  r - ((f64Trunc r : ℤ) : K)

/-- Rust `as usize` saturating cast from a float: truncate toward zero and
map negative values to `0` (the upper clamp at `usize::MAX` is irrelevant at
the magnitudes this program produces). -/
noncomputable def f64ToUsize (r : ℝ) : Nat := (f64Trunc r).toNat

/-- Rust `as u64` saturating cast from a float, used in the escape check.
The magnitudes there are nonnegative rationals. -/
def ratToU64 (q : ℚ) : Nat := (⌊q⌋).toNat

/-- Modelled from the spec: `interpolation::lerp` on `u8` endpoints (the
external crate called by `Color::interpolate` and `Palette::generate`), the
linear blend `a + (b - a) * t` mapped back to `u8` by the truncating
saturating cast. -/
def lerp {K : Type*} [LinearOrderedField K] [FloorRing K]
    (a b : Fin 256) (t : K) : Fin 256 :=
  toU8 ((a.val : K) + ((b.val : K) - (a.val : K)) * t)

/-- The `Color` struct of src/main.rs: three 8-bit channels. -/
structure Color where
  red : Fin 256
  green : Fin 256
  blue : Fin 256
deriving DecidableEq

/-- `Color::new`. -/
def Color.new (r g b : Fin 256) : Color := ⟨r, g, b⟩

/-- `Color::as_slice`: the serialized 4-byte pixel, alpha fixed at `0xFF`. -/
def Color.as_slice (c : Color) : List (Fin 256) :=
  [c.red, c.green, c.blue, 255]

/-- `Color::interpolate`: per-channel lerp with an `f32` blend factor,
modelled over `ℝ`. -/
noncomputable def Color.interpolate (c : Color) (other_color : Color) (t : ℝ) : Color :=
  ⟨lerp c.red other_color.red t,
   lerp c.green other_color.green t,
   lerp c.blue other_color.blue t⟩

/-- The `Palette` struct: the gradient entries and the interior color. -/
structure Palette where
  colors : List Color
  max_color : Color

/-- `Palette::generate`.  Entry `index` uses progress `index / size` (an
`f32` division, exact here), red and green from `0x00` to `0xFF`, blue from
`0x55` to `0xFF`; the interior color is `(0, 0, 0)`. -/
def Palette.generate (size : Nat) : Palette :=
  { colors := (List.range size).map (fun (index : ℕ) =>
      Color.new
        (lerp 0 255 ((index : ℚ) / (size : ℚ)))
        (lerp 0 255 ((index : ℚ) / (size : ℚ)))
        (lerp 85 255 ((index : ℚ) / (size : ℚ)))),
    max_color := Color.new 0 0 0 }

/-- `Palette::get_color`.  The Rust code indexes the vector directly (a
panic if out of range); the embedding totalizes with a default that, by the
index bounds proved below, is never consulted. -/
def Palette.get_color (p : Palette) (index : Nat) : Color :=
  p.colors.getD index (Color.new 0 0 0)

/-- State of the escape loop: `x`, `y` and the iteration counter (an `f64`
in the source, holding exactly the integers `0..=32`). -/
structure LoopState where
  x : ℚ
  y : ℚ
  iter : Nat
deriving DecidableEq

/-- The loop bound written in the source: the Rust expression `2^32`, which
is bitwise XOR, not exponentiation. -/
def escThreshold : Nat := 2 ^^^ 32

/-- The loop guard of `mandelbrot_calculate_point`:
`(x*x + y*y) as u64 <= 2^32 && iteration < MAX_ITERATIONS`. -/
abbrev loopCond (s : LoopState) : Prop :=
  ratToU64 (s.x * s.x + s.y * s.y) ≤ escThreshold ∧ s.iter < MAX_ITERATIONS

/-- One pass of the loop body: `xtemp = x*x - y*y + x0; y = 2*x*y + y0;
x = xtemp; iteration += 1`. -/
def loopStep (x0 y0 : ℚ) (s : LoopState) : LoopState :=
  ⟨s.x * s.x - s.y * s.y + x0, 2 * s.x * s.y + y0, s.iter + 1⟩

/-- The while loop, with enough fuel that it always stops because its guard
fails (the guard forces `iter < 32`, so 33 units of fuel suffice). -/
def mandelLoop (x0 y0 : ℚ) : Nat → LoopState → LoopState
  | 0, s => s
  | fuel + 1, s =>
    if loopCond s then mandelLoop x0 y0 fuel (loopStep x0 y0 s) else s

/-- The state in which the escape loop of `mandelbrot_calculate_point`
terminates, starting from `x = 0, y = 0, iteration = 0`. -/
def mandelState (x0 y0 : ℚ) : LoopState :=
  mandelLoop x0 y0 (MAX_ITERATIONS + 1) ⟨0, 0, 0⟩

/-- The squared magnitude `x*x + y*y` at loop exit. -/
def exitMagSq (x0 y0 : ℚ) : ℚ :=
  (mandelState x0 y0).x * (mandelState x0 y0).x +
    (mandelState x0 y0).y * (mandelState x0 y0).y

/-- The (possibly smoothed) iteration value after the conditional smoothing
step: if the loop exited with `iteration < MAX_ITERATIONS`, compute
`log_zn = log2(x*x + y*y) / 2`, `nu = log2(log_zn / log2(2)) / log2(2)` and
replace `iteration` by `iteration + 1 - nu`; otherwise leave it unchanged. -/
noncomputable def smoothIter (x0 y0 : ℚ) : ℝ :=
  if (mandelState x0 y0).iter < MAX_ITERATIONS then
    ((mandelState x0 y0).iter : ℝ) + 1 -
      Real.logb 2
        ((Real.logb 2 (((mandelState x0 y0).x : ℝ) * ((mandelState x0 y0).x : ℝ) +
            ((mandelState x0 y0).y : ℝ) * ((mandelState x0 y0).y : ℝ)) / 2) /
          Real.logb 2 2) / Real.logb 2 2
  else ((mandelState x0 y0).iter : ℝ)

/-- `mandelbrot_calculate_point`: escape loop, smoothing, color selection
and interpolation, as in src/main.rs. -/
noncomputable def mandelbrot_calculate_point (x0 y0 : ℚ) (palette : Palette) : Color :=
  let iteration := smoothIter x0 y0
  let c1 :=
    if (MAX_ITERATIONS : ℝ) ≤ iteration then palette.max_color
    else palette.get_color (min (f64ToUsize iteration) (MAX_ITERATIONS - 1))
  let c2 := palette.get_color (min (f64ToUsize iteration + 1) (MAX_ITERATIONS - 1))
  c1.interpolate c2 (rustFract iteration)

/-- Modelled from the spec: the escape guard the spec and claim C1 demand,
`x*x + y*y ≤ 4.0 && iteration < MAX_ITERATIONS`, with the literal numeric
threshold `4.0` in place of the source's `(x*x + y*y) as u64 <= 2^32`. -/
abbrev specCond (s : LoopState) : Prop :=
  s.x * s.x + s.y * s.y ≤ 4 ∧ s.iter < MAX_ITERATIONS

/-- Modelled from the spec: the escape loop with the `4.0` bound. -/
def specLoop (x0 y0 : ℚ) : Nat → LoopState → LoopState
  | 0, s => s
  | fuel + 1, s =>
    if specCond s then specLoop x0 y0 fuel (loopStep x0 y0 s) else s

/-- Modelled from the spec: exit state of the `4.0`-bounded loop. -/
def specState (x0 y0 : ℚ) : LoopState :=
  specLoop x0 y0 (MAX_ITERATIONS + 1) ⟨0, 0, 0⟩

/-- The complex-plane x coordinate `main` computes for a buffer index. -/
def pixelX0 (index : Nat) : ℚ :=
  ((1 - (-2.5)) * ((index % WIDTH : Nat) : ℚ)) / (WIDTH : ℚ) + (-2.5)

/-- The complex-plane y coordinate `main` computes for a buffer index. -/
def pixelY0 (index : Nat) : ℚ :=
  ((1 - (-1)) * ((index / WIDTH : Nat) : ℚ)) / (HEIGHT : ℚ) + (-1)

/-- The pixel buffer `set` of `main`: one Color per buffer index, row-major. -/
noncomputable def renderSet : List Color :=
  (List.range (WIDTH * HEIGHT)).map (fun index =>
    mandelbrot_calculate_point (pixelX0 index) (pixelY0 index)
      (Palette.generate MAX_ITERATIONS))

/-- The frame bytes the redraw handler writes: each pixel's 4-byte slice,
concatenated in buffer order. -/
noncomputable def frameBytes : List (Fin 256) :=
  (renderSet.map Color.as_slice).flatten

/-- Modelled from the claim C4's words: primary color by `floor(iteration)`
clamped to `max_iterations - 1` (interior color when
`iteration >= max_iterations`), secondary by `floor(iteration) + 1` clamped
the same way, blended with the fractional part of `iteration`.  Negative
floors are totalized through `Int.toNat`, the reading most favorable to the
claim. -/
noncomputable def c4ClaimColor (x0 y0 : ℚ) (palette : Palette) : Color :=
  let iteration := smoothIter x0 y0
  let c1 :=
    if (MAX_ITERATIONS : ℝ) ≤ iteration then palette.max_color
    else palette.get_color (min ⌊iteration⌋ (MAX_ITERATIONS - 1 : ℤ)).toNat
  let c2 := palette.get_color (min (⌊iteration⌋ + 1) (MAX_ITERATIONS - 1 : ℤ)).toNat
  c1.interpolate c2 (Int.fract iteration)

/-! ### Basic evaluation lemmas -/

lemma escThreshold_eq : escThreshold = 34 := by decide

lemma f64Trunc_nonneg_eq {K : Type*} [LinearOrderedField K] [FloorRing K]
    {r : K} (h : 0 ≤ r) : f64Trunc r = ⌊r⌋ := if_pos h

lemma f64Trunc_neg_eq {K : Type*} [LinearOrderedField K] [FloorRing K]
    {r : K} (h : ¬ 0 ≤ r) : f64Trunc r = ⌈r⌉ := if_neg h

lemma toU8_val_eq {K : Type*} [LinearOrderedField K] [FloorRing K]
    {r : K} {n : ℕ} (hn : n ≤ 255) (h1 : (n : K) ≤ r) (h2 : r < (n : K) + 1) :
    (toU8 r).val = n := by
  have h0 : 0 ≤ r := le_trans (by positivity) h1
  have hfl : ⌊r⌋ = (n : ℤ) := by
    rw [Int.floor_eq_iff]
    constructor
    · exact_mod_cast h1
    · exact_mod_cast h2
  simp [toU8, f64Trunc_nonneg_eq h0, hfl, hn]

lemma toU8_eq {K : Type*} [LinearOrderedField K] [FloorRing K]
    {r : K} {n : ℕ} {m : Fin 256} (hm : m.val = n)
    (h1 : (n : K) ≤ r) (h2 : r < (n : K) + 1) :
    toU8 r = m := by
  apply Fin.ext
  rw [hm, toU8_val_eq (by omega) h1 h2]

lemma toU8_nonpos {K : Type*} [LinearOrderedField K] [FloorRing K]
    {r : K} (h : r ≤ 0) : toU8 r = 0 := by
  apply Fin.ext
  rcases le_or_lt 0 r with h0 | h0
  · have : r = 0 := le_antisymm h h0
    subst this
    simp [toU8, f64Trunc_nonneg_eq le_rfl]
  · have hc : ⌈r⌉ ≤ 0 := Int.ceil_le.mpr (by exact_mod_cast h)
    simp [toU8, f64Trunc_neg_eq (not_le.mpr h0), Int.toNat_eq_zero.mpr hc]

lemma ratToU64_le_of_lt {q : ℚ} {n : ℕ} (h : q < (n : ℚ) + 1) : ratToU64 q ≤ n := by
  have : ⌊q⌋ ≤ (n : ℤ) := by
    rw [Int.floor_le_iff]
    push_cast
    exact h
  unfold ratToU64
  omega

lemma ratToU64_not_le {q : ℚ} {n : ℕ} (h : ((n : ℚ)) + 1 ≤ q) : ¬ ratToU64 q ≤ n := by
  have : ((n : ℤ)) + 1 ≤ ⌊q⌋ := by
    rw [Int.le_floor]
    push_cast
    exact h
  unfold ratToU64
  omega

/-! ### Escape-loop unfolding and concrete runs -/

lemma mandelLoop_cons (x0 y0 : ℚ) (fuel : ℕ) (s : LoopState) (h : loopCond s) :
    mandelLoop x0 y0 (fuel + 1) s = mandelLoop x0 y0 fuel (loopStep x0 y0 s) :=
  if_pos h

lemma mandelLoop_exit (x0 y0 : ℚ) (fuel : ℕ) (s : LoopState) (h : ¬ loopCond s) :
    mandelLoop x0 y0 (fuel + 1) s = s :=
  if_neg h

lemma specLoop_cons (x0 y0 : ℚ) (fuel : ℕ) (s : LoopState) (h : specCond s) :
    specLoop x0 y0 (fuel + 1) s = specLoop x0 y0 fuel (loopStep x0 y0 s) :=
  if_pos h

lemma specLoop_exit (x0 y0 : ℚ) (fuel : ℕ) (s : LoopState) (h : ¬ specCond s) :
    specLoop x0 y0 (fuel + 1) s = s :=
  if_neg h

lemma mandelLoop_not_cond (x0 y0 : ℚ) :
    ∀ (fuel : ℕ) (s : LoopState), MAX_ITERATIONS < s.iter + fuel →
      ¬ loopCond (mandelLoop x0 y0 fuel s)
  | 0, s, h => by
      intro hc
      have h2 : (mandelLoop x0 y0 0 s).iter < MAX_ITERATIONS := hc.2
      have he : mandelLoop x0 y0 0 s = s := rfl
      rw [he] at h2
      omega
  | fuel + 1, s, h => by
      by_cases hc : loopCond s
      · rw [mandelLoop_cons x0 y0 fuel s hc]
        exact mandelLoop_not_cond x0 y0 fuel (loopStep x0 y0 s) (by simp [loopStep]; omega)
      · rw [mandelLoop_exit x0 y0 fuel s hc]
        exact hc

lemma mandelState_not_cond (x0 y0 : ℚ) : ¬ loopCond (mandelState x0 y0) :=
  mandelLoop_not_cond x0 y0 (MAX_ITERATIONS + 1) ⟨0, 0, 0⟩ (by omega)

lemma exitMagSq_ge_of_escape {x0 y0 : ℚ} (h : (mandelState x0 y0).iter < MAX_ITERATIONS) :
    35 ≤ exitMagSq x0 y0 := by
  have hnc := mandelState_not_cond x0 y0
  have hmag : ¬ ratToU64 ((mandelState x0 y0).x * (mandelState x0 y0).x +
      (mandelState x0 y0).y * (mandelState x0 y0).y) ≤ escThreshold := by
    intro hle
    exact hnc ⟨hle, h⟩
  rw [escThreshold_eq] at hmag
  have h35 : (35 : ℤ) ≤ ⌊(mandelState x0 y0).x * (mandelState x0 y0).x +
      (mandelState x0 y0).y * (mandelState x0 y0).y⌋ := by
    unfold ratToU64 at hmag
    omega
  have := Int.le_floor.mp h35
  unfold exitMagSq
  exact_mod_cast this

lemma mandelLoop_zeros :
    ∀ (fuel n : ℕ), n + fuel = MAX_ITERATIONS + 1 → n ≤ MAX_ITERATIONS →
      mandelLoop 0 0 fuel ⟨0, 0, n⟩ = ⟨0, 0, MAX_ITERATIONS⟩
  | 0, n, h, hn => by
      unfold MAX_ITERATIONS at *
      omega
  | fuel + 1, n, h, hn => by
      by_cases hlt : n < MAX_ITERATIONS
      · have hcond : loopCond ⟨0, 0, n⟩ := by
          refine ⟨?_, hlt⟩
          show ratToU64 ((0:ℚ) * 0 + 0 * 0) ≤ escThreshold
          rw [escThreshold_eq]
          exact ratToU64_le_of_lt (by norm_num)
        rw [mandelLoop_cons 0 0 fuel _ hcond]
        have hstep : loopStep 0 0 ⟨0, 0, n⟩ = ⟨0, 0, n + 1⟩ := by
          unfold loopStep
          norm_num
        rw [hstep]
        exact mandelLoop_zeros fuel (n + 1) (by omega) (by omega)
      · have hn' : n = MAX_ITERATIONS := by omega
        subst hn'
        exact mandelLoop_exit 0 0 fuel _ (fun hc => absurd hc.2 (lt_irrefl MAX_ITERATIONS))

lemma mandelState_zero : mandelState 0 0 = ⟨0, 0, MAX_ITERATIONS⟩ :=
  mandelLoop_zeros (MAX_ITERATIONS + 1) 0 rfl (by omega)

lemma mandelState_two_two : mandelState 2 2 = ⟨2, 10, 2⟩ := by
  have h0 : loopCond (⟨0, 0, 0⟩ : LoopState) := by
    refine ⟨?_, by norm_num [MAX_ITERATIONS]⟩
    show ratToU64 ((0:ℚ) * 0 + 0 * 0) ≤ escThreshold
    rw [escThreshold_eq]
    exact ratToU64_le_of_lt (by norm_num)
  have h1 : loopCond (⟨2, 2, 1⟩ : LoopState) := by
    refine ⟨?_, by norm_num [MAX_ITERATIONS]⟩
    show ratToU64 ((2:ℚ) * 2 + 2 * 2) ≤ escThreshold
    rw [escThreshold_eq]
    exact ratToU64_le_of_lt (n := 34) (by norm_num)
  have h2 : ¬ loopCond (⟨2, 10, 2⟩ : LoopState) := by
    intro hc
    have := hc.1
    rw [escThreshold_eq] at this
    exact ratToU64_not_le (n := 34) (q := (2:ℚ) * 2 + 10 * 10) (by norm_num) this
  show mandelLoop 2 2 (MAX_ITERATIONS + 1) ⟨0, 0, 0⟩ = ⟨2, 10, 2⟩
  rw [show MAX_ITERATIONS + 1 = 32 + 1 from rfl, mandelLoop_cons 2 2 32 _ h0]
  rw [show loopStep 2 2 ⟨0, 0, 0⟩ = ⟨2, 2, 1⟩ by unfold loopStep; norm_num]
  rw [show (32 : ℕ) = 31 + 1 from rfl, mandelLoop_cons 2 2 31 _ h1]
  rw [show loopStep 2 2 ⟨2, 2, 1⟩ = ⟨2, 10, 2⟩ by unfold loopStep; norm_num]
  rw [show (31 : ℕ) = 30 + 1 from rfl, mandelLoop_exit 2 2 30 _ h2]

lemma mandelState_fifty_zero : mandelState 50 0 = ⟨50, 0, 1⟩ := by
  have h0 : loopCond (⟨0, 0, 0⟩ : LoopState) := by
    refine ⟨?_, by norm_num [MAX_ITERATIONS]⟩
    show ratToU64 ((0:ℚ) * 0 + 0 * 0) ≤ escThreshold
    rw [escThreshold_eq]
    exact ratToU64_le_of_lt (by norm_num)
  have h1 : ¬ loopCond (⟨50, 0, 1⟩ : LoopState) := by
    intro hc
    have := hc.1
    rw [escThreshold_eq] at this
    exact ratToU64_not_le (n := 34) (q := (50:ℚ) * 50 + 0 * 0) (by norm_num) this
  show mandelLoop 50 0 (MAX_ITERATIONS + 1) ⟨0, 0, 0⟩ = ⟨50, 0, 1⟩
  rw [show MAX_ITERATIONS + 1 = 32 + 1 from rfl, mandelLoop_cons 50 0 32 _ h0]
  rw [show loopStep 50 0 ⟨0, 0, 0⟩ = ⟨50, 0, 1⟩ by unfold loopStep; norm_num]
  rw [show (32 : ℕ) = 31 + 1 from rfl, mandelLoop_exit 50 0 31 _ h1]

lemma specState_two_two : specState 2 2 = ⟨2, 2, 1⟩ := by
  have h0 : specCond (⟨0, 0, 0⟩ : LoopState) := by
    constructor
    · show (0:ℚ) * 0 + 0 * 0 ≤ 4
      norm_num
    · norm_num [MAX_ITERATIONS]
  have h1 : ¬ specCond (⟨2, 2, 1⟩ : LoopState) := by
    intro hc
    have : (2:ℚ) * 2 + 2 * 2 ≤ 4 := hc.1
    norm_num at this
  show specLoop 2 2 (MAX_ITERATIONS + 1) ⟨0, 0, 0⟩ = ⟨2, 2, 1⟩
  rw [show MAX_ITERATIONS + 1 = 32 + 1 from rfl, specLoop_cons 2 2 32 _ h0]
  rw [show loopStep 2 2 ⟨0, 0, 0⟩ = ⟨2, 2, 1⟩ by unfold loopStep; norm_num]
  rw [show (32 : ℕ) = 31 + 1 from rfl, specLoop_exit 2 2 31 _ h1]

/-! ### Palette entries -/

lemma generate_length (size : ℕ) : (Palette.generate size).colors.length = size := by
  simp [Palette.generate]

lemma generate_get_color {size i : ℕ} (h : i < size) :
    (Palette.generate size).get_color i =
      Color.new (lerp 0 255 ((i : ℚ) / (size : ℚ)))
        (lerp 0 255 ((i : ℚ) / (size : ℚ)))
        (lerp 85 255 ((i : ℚ) / (size : ℚ))) := by
  unfold Palette.generate Palette.get_color
  rw [List.getD_eq_getElem?_getD, List.getElem?_map, List.getElem?_range h]
  rfl

lemma generate32_color0 : (Palette.generate 32).get_color 0 = Color.new 0 0 85 := by
  rw [generate_get_color (by norm_num)]
  unfold Color.new lerp
  simp only [show ((255 : Fin 256) : ℕ) = 255 from rfl,
    show ((85 : Fin 256) : ℕ) = 85 from rfl, show ((0 : Fin 256) : ℕ) = 0 from rfl]
  congr 1
  · exact toU8_eq (n := 0) rfl (by norm_num) (by norm_num)
  · exact toU8_eq (n := 0) rfl (by norm_num) (by norm_num)
  · exact toU8_eq (n := 85) rfl (by norm_num) (by norm_num)

lemma generate32_color1 : (Palette.generate 32).get_color 1 = Color.new 7 7 90 := by
  rw [generate_get_color (by norm_num)]
  unfold Color.new lerp
  simp only [show ((255 : Fin 256) : ℕ) = 255 from rfl,
    show ((85 : Fin 256) : ℕ) = 85 from rfl, show ((0 : Fin 256) : ℕ) = 0 from rfl]
  congr 1
  · exact toU8_eq (n := 7) rfl (by norm_num) (by norm_num)
  · exact toU8_eq (n := 7) rfl (by norm_num) (by norm_num)
  · exact toU8_eq (n := 90) rfl (by norm_num) (by norm_num)

/-! ### Logarithm bounds -/

lemma logb_two_two : Real.logb 2 2 = 1 := Real.logb_self_eq_one (by norm_num)

lemma logb2_lt_of_pow_lt {X : ℝ} {p q : ℕ} (hq : 0 < q) (hX : 0 < X)
    (h : X ^ q < 2 ^ p) : Real.logb 2 X < (p : ℝ) / (q : ℝ) := by
  have h1 : Real.logb 2 (X ^ q) < Real.logb 2 ((2 : ℝ) ^ p) :=
    Real.logb_lt_logb (by norm_num) (pow_pos hX q) h
  rw [Real.logb_pow, Real.logb_pow, logb_two_two, mul_one] at h1
  rw [lt_div_iff₀ (by exact_mod_cast hq)]
  calc Real.logb 2 X * (q : ℝ) = (q : ℝ) * Real.logb 2 X := by ring
    _ < (p : ℝ) := h1

lemma lt_logb2_of_pow_lt {X : ℝ} {p q : ℕ} (hq : 0 < q) (hX : 0 < X)
    (h : (2 : ℝ) ^ p < X ^ q) : (p : ℝ) / (q : ℝ) < Real.logb 2 X := by
  have hXq : (0 : ℝ) < X ^ q := pow_pos hX q
  have h1 : Real.logb 2 ((2 : ℝ) ^ p) < Real.logb 2 (X ^ q) :=
    Real.logb_lt_logb (by norm_num) (by positivity) h
  rw [Real.logb_pow, Real.logb_pow, logb_two_two, mul_one] at h1
  rw [div_lt_iff₀ (by exact_mod_cast hq)]
  calc (p : ℝ) < (q : ℝ) * Real.logb 2 X := h1
    _ = Real.logb 2 X * (q : ℝ) := by ring

/-! ### Smoothed iteration: unfolding and concrete bounds -/

lemma smoothIter_of_escape {x0 y0 : ℚ} (h : (mandelState x0 y0).iter < MAX_ITERATIONS) :
    smoothIter x0 y0 = ((mandelState x0 y0).iter : ℝ) + 1 -
      Real.logb 2
        ((Real.logb 2 (((mandelState x0 y0).x : ℝ) * ((mandelState x0 y0).x : ℝ) +
            ((mandelState x0 y0).y : ℝ) * ((mandelState x0 y0).y : ℝ)) / 2) /
          Real.logb 2 2) / Real.logb 2 2 := by
  unfold smoothIter
  rw [if_pos h]

lemma smoothIter_of_full {x0 y0 : ℚ} (h : ¬ (mandelState x0 y0).iter < MAX_ITERATIONS) :
    smoothIter x0 y0 = ((mandelState x0 y0).iter : ℝ) := by
  unfold smoothIter
  rw [if_neg h]

lemma smoothIter_two_two :
    smoothIter 2 2 = 3 - Real.logb 2 (Real.logb 2 104 / 2) := by
  rw [smoothIter_of_escape (by rw [mandelState_two_two]; norm_num [MAX_ITERATIONS])]
  rw [mandelState_two_two, logb_two_two]
  norm_num

lemma smoothIter_fifty_zero :
    smoothIter 50 0 = 2 - Real.logb 2 (Real.logb 2 2500 / 2) := by
  rw [smoothIter_of_escape (by rw [mandelState_fifty_zero]; norm_num [MAX_ITERATIONS])]
  rw [mandelState_fifty_zero, logb_two_two]
  norm_num

lemma smoothIter_two_two_bounds :
    1 < smoothIter 2 2 ∧ smoothIter 2 2 < 2 := by
  rw [smoothIter_two_two]
  have hL_lo : (6 : ℝ) < Real.logb 2 104 := by
    have := lt_logb2_of_pow_lt (X := 104) (p := 6) (q := 1)
      (by norm_num) (by norm_num) (by norm_num)
    simpa using this
  have hL_hi : Real.logb 2 104 < 7 := by
    have := logb2_lt_of_pow_lt (X := 104) (p := 7) (q := 1)
      (by norm_num) (by norm_num) (by norm_num)
    simpa using this
  have hz_lo : (2 : ℝ) < Real.logb 2 104 / 2 := by linarith
  have hz_hi : Real.logb 2 104 / 2 < 4 := by linarith
  have hnu_lo : (1 : ℝ) < Real.logb 2 (Real.logb 2 104 / 2) := by
    have := lt_logb2_of_pow_lt (X := Real.logb 2 104 / 2) (p := 1) (q := 1)
      (by norm_num) (by linarith) (by rw [pow_one, pow_one]; exact hz_lo)
    simpa using this
  have hnu_hi : Real.logb 2 (Real.logb 2 104 / 2) < 2 := by
    have := logb2_lt_of_pow_lt (X := Real.logb 2 104 / 2) (p := 2) (q := 1)
      (by norm_num) (by linarith)
      (by rw [pow_one, show ((2:ℝ)) ^ 2 = 4 by norm_num]; exact hz_hi)
    simpa using this
  constructor <;> linarith

lemma smoothIter_fifty_zero_bounds :
    -3/5 < smoothIter 50 0 ∧ smoothIter 50 0 < -2/5 := by
  rw [smoothIter_fifty_zero]
  have hL_lo : (56 : ℝ) / 5 < Real.logb 2 2500 :=
    lt_logb2_of_pow_lt (by norm_num) (by norm_num) (by norm_num)
  have hL_hi : Real.logb 2 2500 < (57 : ℝ) / 5 :=
    logb2_lt_of_pow_lt (by norm_num) (by norm_num) (by norm_num)
  have hz_lo : (28 : ℝ) / 5 < Real.logb 2 2500 / 2 := by linarith
  have hz_hi : Real.logb 2 2500 / 2 < (57 : ℝ) / 10 := by linarith
  have hz_pos : (0 : ℝ) < Real.logb 2 2500 / 2 := by linarith
  have hnu_lo : (12 : ℝ) / 5 < Real.logb 2 (Real.logb 2 2500 / 2) := by
    refine lt_logb2_of_pow_lt (by norm_num) hz_pos ?_
    calc ((2 : ℝ)) ^ 12 < ((28 : ℝ) / 5) ^ 5 := by norm_num
      _ < (Real.logb 2 2500 / 2) ^ 5 :=
        pow_lt_pow_left₀ hz_lo (by norm_num) (by norm_num)
  have hnu_hi : Real.logb 2 (Real.logb 2 2500 / 2) < (13 : ℝ) / 5 := by
    refine logb2_lt_of_pow_lt (by norm_num) hz_pos ?_
    calc (Real.logb 2 2500 / 2) ^ 5 < ((57 : ℝ) / 10) ^ 5 :=
        pow_lt_pow_left₀ hz_hi (le_of_lt hz_pos) (by norm_num)
      _ < (2 : ℝ) ^ 13 := by norm_num
  constructor <;> linarith

/-! ### Interpolation helpers -/

lemma interpolate_t_zero (c o : Color) : c.interpolate o 0 = c := by
  unfold Color.interpolate lerp
  have h : ∀ a b : Fin 256,
      toU8 ((a.val : ℝ) + ((b.val : ℝ) - (a.val : ℝ)) * 0) = a := by
    intro a b
    rw [mul_zero, add_zero]
    exact toU8_eq rfl le_rfl (by norm_num)
  rw [h, h, h]

lemma interpolate_t_one (c o : Color) : c.interpolate o 1 = o := by
  unfold Color.interpolate lerp
  have h : ∀ a b : Fin 256,
      toU8 ((a.val : ℝ) + ((b.val : ℝ) - (a.val : ℝ)) * 1) = b := by
    intro a b
    rw [show (a.val : ℝ) + ((b.val : ℝ) - (a.val : ℝ)) * 1 = (b.val : ℝ) by ring]
    exact toU8_eq rfl le_rfl (by norm_num)
  rw [h, h, h]

lemma f64Trunc_mono {K : Type*} [LinearOrderedField K] [FloorRing K]
    {r s : K} (h : r ≤ s) : f64Trunc r ≤ f64Trunc s := by
  unfold f64Trunc
  rcases le_or_lt 0 r with h1 | h1 <;> rcases le_or_lt 0 s with h2 | h2
  · rw [if_pos h1, if_pos h2]
    exact Int.floor_le_floor h
  · exact absurd (le_trans h1 h) (not_le.mpr h2)
  · rw [if_neg (not_le.mpr h1), if_pos h2]
    calc ⌈r⌉ ≤ (0 : ℤ) := Int.ceil_le.mpr (by exact_mod_cast le_of_lt h1)
      _ ≤ ⌊s⌋ := Int.le_floor.mpr (by exact_mod_cast h2)
  · rw [if_neg (not_le.mpr h1), if_neg (not_le.mpr h2)]
    exact Int.ceil_le_ceil h

lemma toU8_le_toU8 {K : Type*} [LinearOrderedField K] [FloorRing K]
    {r s : K} (h : r ≤ s) : toU8 r ≤ toU8 s := by
  unfold toU8
  simp only [Fin.mk_le_mk]
  exact min_le_min (Int.toNat_le_toNat (f64Trunc_mono h)) le_rfl

lemma lerp_mono_incr {a b : Fin 256} {t1 t2 : ℝ} (hab : a ≤ b) (h : t1 ≤ t2) :
    lerp a b t1 ≤ lerp a b t2 := by
  unfold lerp
  apply toU8_le_toU8
  have hv : ((a.val : ℝ)) ≤ (b.val : ℝ) := by exact_mod_cast hab
  have := mul_le_mul_of_nonneg_left h (by linarith : (0:ℝ) ≤ (b.val : ℝ) - (a.val : ℝ))
  linarith

lemma lerp_mono_decr {a b : Fin 256} {t1 t2 : ℝ} (hab : b ≤ a) (h : t1 ≤ t2) :
    lerp a b t2 ≤ lerp a b t1 := by
  unfold lerp
  apply toU8_le_toU8
  have hv : ((b.val : ℝ)) ≤ (a.val : ℝ) := by exact_mod_cast hab
  have := mul_le_mul_of_nonpos_left h (by linarith : (b.val : ℝ) - (a.val : ℝ) ≤ 0)
  linarith

/-! ### Concrete colors at the counterexample input (50, 0) -/

lemma f64Trunc_smoothIter_fifty : f64Trunc (smoothIter 50 0) = 0 := by
  obtain ⟨hlo, hhi⟩ := smoothIter_fifty_zero_bounds
  rw [f64Trunc_neg_eq (not_le.mpr (by linarith))]
  rw [Int.ceil_eq_iff]
  push_cast
  constructor <;> linarith

lemma floor_smoothIter_fifty : ⌊smoothIter 50 0⌋ = -1 := by
  obtain ⟨hlo, hhi⟩ := smoothIter_fifty_zero_bounds
  rw [Int.floor_eq_iff]
  push_cast
  constructor <;> linarith

lemma mandel_fifty_zero :
    mandelbrot_calculate_point 50 0 (Palette.generate 32) = Color.new 0 0 82 := by
  obtain ⟨hlo, hhi⟩ := smoothIter_fifty_zero_bounds
  unfold mandelbrot_calculate_point
  dsimp only
  rw [if_neg (by norm_num [MAX_ITERATIONS]; linarith)]
  have hidx : f64ToUsize (smoothIter 50 0) = 0 := by
    unfold f64ToUsize
    rw [f64Trunc_smoothIter_fifty]
    rfl
  rw [hidx]
  rw [show min 0 (MAX_ITERATIONS - 1) = 0 by norm_num [MAX_ITERATIONS]]
  rw [show min (0 + 1) (MAX_ITERATIONS - 1) = 1 by norm_num [MAX_ITERATIONS]]
  rw [generate32_color0, generate32_color1]
  have hfr : rustFract (smoothIter 50 0) = smoothIter 50 0 := by
    unfold rustFract
    rw [f64Trunc_smoothIter_fifty]
    push_cast
    ring
  rw [hfr]
  unfold Color.new Color.interpolate lerp
  simp only [show ((85 : Fin 256) : ℕ) = 85 from rfl, show ((90 : Fin 256) : ℕ) = 90 from rfl,
    show ((7 : Fin 256) : ℕ) = 7 from rfl, show ((0 : Fin 256) : ℕ) = 0 from rfl]
  congr 1
  · push_cast
    exact toU8_nonpos (by nlinarith)
  · push_cast
    exact toU8_nonpos (by nlinarith)
  · push_cast
    exact toU8_eq (n := 82) rfl (by push_cast; nlinarith) (by push_cast; nlinarith)

lemma c4Claim_fifty_zero :
    c4ClaimColor 50 0 (Palette.generate 32) = Color.new 0 0 85 := by
  obtain ⟨hlo, hhi⟩ := smoothIter_fifty_zero_bounds
  unfold c4ClaimColor
  dsimp only
  rw [if_neg (by norm_num [MAX_ITERATIONS]; linarith)]
  rw [floor_smoothIter_fifty]
  rw [show (min (-1 : ℤ) (MAX_ITERATIONS - 1 : ℤ)).toNat = 0 by norm_num [MAX_ITERATIONS]]
  rw [show (min ((-1 : ℤ) + 1) (MAX_ITERATIONS - 1 : ℤ)).toNat = 0 by norm_num [MAX_ITERATIONS]]
  rw [generate32_color0]
  unfold Color.new Color.interpolate lerp
  simp only [show ((85 : Fin 256) : ℕ) = 85 from rfl, show ((0 : Fin 256) : ℕ) = 0 from rfl]
  congr 1
  · push_cast
    rw [show (0 : ℝ) + (0 - 0) * Int.fract (smoothIter 50 0) = 0 by ring]
    exact toU8_nonpos le_rfl
  · push_cast
    rw [show (0 : ℝ) + (0 - 0) * Int.fract (smoothIter 50 0) = 0 by ring]
    exact toU8_nonpos le_rfl
  · push_cast
    rw [show (85 : ℝ) + (85 - 85) * Int.fract (smoothIter 50 0) = 85 by ring]
    exact toU8_eq (n := 85) rfl (by norm_num) (by norm_num)

/-! ### Buffer lemmas -/

lemma flatten_length_four {α : Type*} :
    ∀ (L : List (List α)), (∀ l ∈ L, l.length = 4) → L.flatten.length = 4 * L.length := by
  intro L
  induction L with
  | nil => intro _; simp
  | cons a t ih =>
      intro h
      rw [List.flatten_cons, List.length_append, List.length_cons,
        h a (List.mem_cons_self a t), ih (fun l hl => h l (List.mem_cons_of_mem a hl))]
      ring

lemma flatten_chunk {α : Type*} :
    ∀ (L : List (List α)), (∀ l ∈ L, l.length = 4) →
      ∀ (i : ℕ) (h : i < L.length),
        (L.flatten.drop (4 * i)).take 4 = L.get ⟨i, h⟩ := by
  intro L
  induction L with
  | nil => intro _ i h; exact absurd h (by simp)
  | cons a t ih =>
      intro h4 i hi
      cases i with
      | zero =>
          rw [List.flatten_cons, Nat.mul_zero, List.drop_zero]
          rw [show (4 : ℕ) = a.length from (h4 a (List.mem_cons_self a t)).symm]
          rw [List.take_left]
          rfl
      | succ j =>
          rw [List.flatten_cons]
          rw [show 4 * (j + 1) = a.length + 4 * j by
            rw [h4 a (List.mem_cons_self a t)]; ring]
          rw [List.drop_append]
          exact ih (fun l hl => h4 l (List.mem_cons_of_mem a hl)) j
            (Nat.lt_of_succ_lt_succ hi)

lemma get_map_eq {α β : Type*} (f : α → β) (l : List α) (i : ℕ)
    (h1 : i < (l.map f).length) (h2 : i < l.length) :
    (l.map f).get ⟨i, h1⟩ = f (l.get ⟨i, h2⟩) := by
  rw [List.get_eq_getElem, List.get_eq_getElem, List.getElem_map]

lemma renderSet_length : renderSet.length = WIDTH * HEIGHT := by
  unfold renderSet
  rw [List.length_map, List.length_range]

lemma renderSet_get (i : ℕ) (h : i < renderSet.length) :
    renderSet.get ⟨i, h⟩ =
      mandelbrot_calculate_point (pixelX0 i) (pixelY0 i)
        (Palette.generate MAX_ITERATIONS) := by
  rw [List.get_eq_getElem]
  simp only [renderSet, List.getElem_map, List.getElem_range]

lemma as_slice_length (c : Color) : c.as_slice.length = 4 := rfl

/-! ### Claim theorems -/

lemma generate_color_zero {size : ℕ} (h : 0 < size) :
    (Palette.generate size).get_color 0 = Color.new 0 0 85 := by
  rw [generate_get_color h]
  unfold Color.new lerp
  simp only [show ((255 : Fin 256) : ℕ) = 255 from rfl,
    show ((85 : Fin 256) : ℕ) = 85 from rfl, show ((0 : Fin 256) : ℕ) = 0 from rfl]
  congr 1
  · exact toU8_eq (n := 0) rfl (by push_cast; norm_num) (by push_cast; norm_num)
  · exact toU8_eq (n := 0) rfl (by push_cast; norm_num) (by push_cast; norm_num)
  · exact toU8_eq (n := 85) rfl (by push_cast; norm_num) (by push_cast; norm_num)

/-- C1: the claim says the escape loop repeats exactly while
`x² + y² ≤ 4.0` (a literal numeric threshold) and `iteration <
max_iterations`.  The source instead tests `(x*x + y*y) as u64 <= 2^32`,
and `2^32` in Rust is bitwise XOR, equal to 34; so at the state reached
after one pass from `(x0, y0) = (2, 2)` — where `x² + y² = 8` — the source's
guard still holds while the claimed `4.0` guard already fails, and the
source loop runs 2 passes where the claimed loop runs 1.  The claim states
the intended behavior (the spec flags the source expression as a defect);
the code is the slip. -/
theorem c1_escape_bound_defect :
    escThreshold = 34 ∧
    loopCond ⟨2, 2, 1⟩ ∧ ¬ specCond ⟨2, 2, 1⟩ ∧
    (mandelState 2 2).iter = 2 ∧ (specState 2 2).iter = 1 := by
  refine ⟨escThreshold_eq, ⟨?_, by norm_num [MAX_ITERATIONS]⟩, ?_, ?_, ?_⟩
  · show ratToU64 ((2:ℚ) * 2 + 2 * 2) ≤ escThreshold
    rw [escThreshold_eq]
    exact ratToU64_le_of_lt (n := 34) (by norm_num)
  · intro hc
    have : (2:ℚ) * 2 + 2 * 2 ≤ 4 := hc.1
    norm_num at this
  · rw [mandelState_two_two]
  · rw [specState_two_two]

/-- C2: any sample point whose escape loop runs the full budget (the exit
iteration count equals `max_iterations`, so the escape bound never fired)
skips smoothing — the smoothed value stays `32` — and the returned color is
exactly the palette's interior color `(0, 0, 0)`.  The witness instantiates
this at `(x0, y0) = (0, 0)`. -/
theorem c2_interior_color (x0 y0 : ℚ) (h : (mandelState x0 y0).iter = MAX_ITERATIONS) :
    smoothIter x0 y0 = ((MAX_ITERATIONS : ℕ) : ℝ) ∧
    mandelbrot_calculate_point x0 y0 (Palette.generate MAX_ITERATIONS) = Color.new 0 0 0 ∧
    (Palette.generate MAX_ITERATIONS).max_color = Color.new 0 0 0 := by
  have hs : smoothIter x0 y0 = ((MAX_ITERATIONS : ℕ) : ℝ) := by
    rw [smoothIter_of_full (by omega), h]
  refine ⟨hs, ?_, rfl⟩
  unfold mandelbrot_calculate_point
  dsimp only
  rw [hs]
  rw [if_pos le_rfl]
  have hfr : rustFract ((MAX_ITERATIONS : ℕ) : ℝ) = 0 := by
    unfold rustFract
    rw [f64Trunc_nonneg_eq (by positivity), Int.floor_natCast]
    push_cast
    ring
  rw [hfr, interpolate_t_zero]
  rfl

theorem c2_interior_witness :
    (mandelState 0 0).iter = MAX_ITERATIONS ∧
      (smoothIter 0 0 = ((MAX_ITERATIONS : ℕ) : ℝ) ∧
       mandelbrot_calculate_point 0 0 (Palette.generate MAX_ITERATIONS) = Color.new 0 0 0 ∧
       (Palette.generate MAX_ITERATIONS).max_color = Color.new 0 0 0) :=
  ⟨by rw [mandelState_zero], c2_interior_color 0 0 (by rw [mandelState_zero])⟩

/-- C3: smoothing is applied exactly when the loop exited with
`iteration < max_iterations`; in that case the value becomes
`iteration + 1 - nu` with `log_zn = log2(x² + y²) / 2` and
`nu = log2(log_zn / log2 2) / log2 2`; otherwise the value is left
unchanged. -/
theorem c3_smoothing_formula (x0 y0 : ℚ) :
    ((mandelState x0 y0).iter < MAX_ITERATIONS →
      smoothIter x0 y0 = ((mandelState x0 y0).iter : ℝ) + 1 -
        Real.logb 2
          ((Real.logb 2 (((mandelState x0 y0).x : ℝ) ^ 2 +
              ((mandelState x0 y0).y : ℝ) ^ 2) / 2) /
            Real.logb 2 2) / Real.logb 2 2) ∧
    (MAX_ITERATIONS ≤ (mandelState x0 y0).iter →
      smoothIter x0 y0 = ((mandelState x0 y0).iter : ℝ)) := by
  constructor
  · intro h
    rw [smoothIter_of_escape h, pow_two, pow_two]
  · intro h
    exact smoothIter_of_full (not_lt.mpr h)

theorem c3_smoothing_witness :
    MAX_ITERATIONS ≤ (mandelState 0 0).iter ∧
      smoothIter 0 0 = ((mandelState 0 0).iter : ℝ) :=
  ⟨by rw [mandelState_zero], (c3_smoothing_formula 0 0).2 (by rw [mandelState_zero])⟩

/-- C4 (amended): the returned color interpolates, with blend factor
`iteration - trunc(iteration)` (Rust `fract`, which equals the fractional
part only for nonnegative values), between the interior color (when
`iteration ≥ max_iterations`) or the entry at the truncating saturating
`as usize` index clamped to `max_iterations - 1`, and the entry at that
index plus one, clamped the same way.  On nonnegative smoothed iterations
the `as usize` conversion agrees with the claimed `floor` and Rust `fract`
agrees with the claimed fractional part; the counterexample shows they
disagree for a negative smoothed iteration. -/
theorem c4_color_selection :
    (∀ (x0 y0 : ℚ) (palette : Palette),
      mandelbrot_calculate_point x0 y0 palette =
        (if (MAX_ITERATIONS : ℝ) ≤ smoothIter x0 y0 then palette.max_color
         else palette.get_color
            (min (f64ToUsize (smoothIter x0 y0)) (MAX_ITERATIONS - 1))).interpolate
          (palette.get_color
            (min (f64ToUsize (smoothIter x0 y0) + 1) (MAX_ITERATIONS - 1)))
          (rustFract (smoothIter x0 y0))) ∧
    (∀ r : ℝ, 0 ≤ r → (f64ToUsize r : ℤ) = ⌊r⌋ ∧ rustFract r = Int.fract r) := by
  constructor
  · intro x0 y0 palette
    rfl
  · intro r hr
    constructor
    · unfold f64ToUsize
      rw [f64Trunc_nonneg_eq hr]
      exact Int.toNat_of_nonneg (Int.floor_nonneg.mpr hr)
    · unfold rustFract
      rw [f64Trunc_nonneg_eq hr, Int.fract]

theorem c4_color_selection_witness :
    (0 : ℝ) ≤ 0 ∧
      ((f64ToUsize (0 : ℝ) : ℤ) = ⌊(0 : ℝ)⌋ ∧ rustFract (0 : ℝ) = Int.fract (0 : ℝ)) :=
  ⟨le_rfl, c4_color_selection.2 0 le_rfl⟩

/-- C4 (counterexample): at `(x0, y0) = (50, 0)` the smoothed iteration
lies in `(-3/5, -2/5)`; the code's truncating conversion and `fract` give
the color `(0, 0, 82)`, while the claim's `floor` index and fractional-part
blend give `(0, 0, 85)` — the claim as stated does not describe the
function. -/
theorem c4_counterexample :
    mandelbrot_calculate_point 50 0 (Palette.generate 32) ≠
      c4ClaimColor 50 0 (Palette.generate 32) := by
  rw [mandel_fifty_zero, c4Claim_fifty_zero]
  decide

/-- C5: for every positive `size`, `Palette::generate` yields exactly
`size` entries; entry `i` has red and green `lerp`ed from `0x00` to `0xFF`
and blue from `0x55` to `0xFF` at progress `i / size`; the interior color is
`(0, 0, 0)`; and entry `0` is exactly `(0x00, 0x00, 0x55)`. -/
theorem c5_palette_generate (size : ℕ) (hsize : 0 < size) :
    (Palette.generate size).colors.length = size ∧
    (∀ i, i < size →
      (Palette.generate size).get_color i =
        Color.new (toU8 ((0 : ℚ) + (255 - 0) * ((i : ℚ) / (size : ℚ))))
          (toU8 ((0 : ℚ) + (255 - 0) * ((i : ℚ) / (size : ℚ))))
          (toU8 ((85 : ℚ) + (255 - 85) * ((i : ℚ) / (size : ℚ))))) ∧
    (Palette.generate size).max_color = Color.new 0 0 0 ∧
    (Palette.generate size).get_color 0 = Color.new 0 0 85 := by
  refine ⟨generate_length size, ?_, rfl, generate_color_zero hsize⟩
  intro i hi
  rw [generate_get_color hi]
  unfold Color.new lerp
  simp only [show ((255 : Fin 256) : ℕ) = 255 from rfl,
    show ((85 : Fin 256) : ℕ) = 85 from rfl, show ((0 : Fin 256) : ℕ) = 0 from rfl]
  congr 1

theorem c5_palette_witness :
    0 < 4 ∧
      ((Palette.generate 4).colors.length = 4 ∧
       (Palette.generate 4).get_color 0 = Color.new 0 0 85) :=
  ⟨by norm_num,
   (c5_palette_generate 4 (by norm_num)).1,
   (c5_palette_generate 4 (by norm_num)).2.2.2⟩

/-- C6: whenever the smoothing branch runs (the loop exited with
`iteration < max_iterations`), the exit condition already guarantees the
squared magnitude is at least 35, so both `log2` arguments — the magnitude,
and `log_zn / log2 2` — are strictly positive: the logarithm is never taken
of a zero or negative value.  (The code has no epsilon clamp; the escape
guard itself is the protection, and in this real-number model no NaN can
arise.) -/
theorem c6_smoothing_guard (x0 y0 : ℚ)
    (h : (mandelState x0 y0).iter < MAX_ITERATIONS) :
    35 ≤ exitMagSq x0 y0 ∧
    (0 : ℝ) < ((mandelState x0 y0).x : ℝ) * ((mandelState x0 y0).x : ℝ) +
      ((mandelState x0 y0).y : ℝ) * ((mandelState x0 y0).y : ℝ) ∧
    0 < (Real.logb 2 (((mandelState x0 y0).x : ℝ) * ((mandelState x0 y0).x : ℝ) +
        ((mandelState x0 y0).y : ℝ) * ((mandelState x0 y0).y : ℝ)) / 2) /
      Real.logb 2 2 := by
  have h35 := exitMagSq_ge_of_escape h
  have hmagR : (35 : ℝ) ≤ ((mandelState x0 y0).x : ℝ) * ((mandelState x0 y0).x : ℝ) +
      ((mandelState x0 y0).y : ℝ) * ((mandelState x0 y0).y : ℝ) := by
    unfold exitMagSq at h35
    exact_mod_cast h35
  refine ⟨h35, by linarith, ?_⟩
  apply div_pos
  · apply div_pos
    · exact Real.logb_pos (by norm_num) (by linarith)
    · norm_num
  · rw [logb_two_two]
    norm_num

theorem c6_smoothing_guard_witness :
    (mandelState 2 2).iter < MAX_ITERATIONS ∧ 35 ≤ exitMagSq 2 2 :=
  ⟨by rw [mandelState_two_two]; norm_num [MAX_ITERATIONS],
   (c6_smoothing_guard 2 2 (by rw [mandelState_two_two]; norm_num [MAX_ITERATIONS])).1⟩

/-- C7: `Color::interpolate` at `t = 0` returns `self` exactly, at `t = 1`
returns `other` exactly, and each channel is monotone in `t` on `[0, 1]` —
nondecreasing when the channel increases from `self` to `other`,
nonincreasing when it decreases. -/
theorem c7_interpolate_blend :
    (∀ c o : Color, c.interpolate o 0 = c) ∧
    (∀ c o : Color, c.interpolate o 1 = o) ∧
    (∀ (c o : Color) (t1 t2 : ℝ), 0 ≤ t1 → t1 ≤ t2 → t2 ≤ 1 →
      ((c.red ≤ o.red → (c.interpolate o t1).red ≤ (c.interpolate o t2).red) ∧
       (o.red ≤ c.red → (c.interpolate o t2).red ≤ (c.interpolate o t1).red)) ∧
      ((c.green ≤ o.green → (c.interpolate o t1).green ≤ (c.interpolate o t2).green) ∧
       (o.green ≤ c.green → (c.interpolate o t2).green ≤ (c.interpolate o t1).green)) ∧
      ((c.blue ≤ o.blue → (c.interpolate o t1).blue ≤ (c.interpolate o t2).blue) ∧
       (o.blue ≤ c.blue → (c.interpolate o t2).blue ≤ (c.interpolate o t1).blue))) := by
  refine ⟨interpolate_t_zero, interpolate_t_one, ?_⟩
  intro c o t1 t2 _h0 h12 _h1
  exact ⟨⟨fun hab => lerp_mono_incr hab h12, fun hab => lerp_mono_decr hab h12⟩,
    ⟨fun hab => lerp_mono_incr hab h12, fun hab => lerp_mono_decr hab h12⟩,
    ⟨fun hab => lerp_mono_incr hab h12, fun hab => lerp_mono_decr hab h12⟩⟩

theorem c7_interpolate_witness :
    (0 : ℝ) ≤ 0 ∧ (0 : ℝ) ≤ 1 ∧ (1 : ℝ) ≤ 1 ∧
    (Color.new 0 0 0).red ≤ (Color.new 255 255 255).red ∧
    (Color.new 0 0 0).interpolate (Color.new 255 255 255) 0 = Color.new 0 0 0 ∧
    ((Color.new 0 0 0).interpolate (Color.new 255 255 255) 0).red ≤
      ((Color.new 0 0 0).interpolate (Color.new 255 255 255) 1).red :=
  ⟨le_rfl, zero_le_one, le_rfl, by decide,
   c7_interpolate_blend.1 _ _,
   ((c7_interpolate_blend.2.2 (Color.new 0 0 0) (Color.new 255 255 255) 0 1
      le_rfl zero_le_one le_rfl).1).1 (by decide)⟩

/-- C8: at the far-outside point `(x0, y0) = (2, 2)` the loop exits after
2 iterations (within the claimed 1–2), and the smoothed iteration value is
small and finite: it lies strictly between 1 and 2. -/
theorem c8_far_point :
    (mandelState 2 2).iter = 2 ∧ 1 < smoothIter 2 2 ∧ smoothIter 2 2 < 2 :=
  ⟨by rw [mandelState_two_two], smoothIter_two_two_bounds.1, smoothIter_two_two_bounds.2⟩

/-- C9: serializing a Color yields exactly `[red, green, blue, 0xFF]`; the
buffer holds one Color per pixel in row-major index order, `width * height`
entries, and the frame bytes are those 4-byte quadruples concatenated (so
every pixel's fourth byte is the fixed alpha `0xFF`). -/
theorem c9_pixel_buffer :
    (∀ c : Color, c.as_slice = [c.red, c.green, c.blue, 255]) ∧
    renderSet.length = WIDTH * HEIGHT ∧
    frameBytes.length = WIDTH * HEIGHT * 4 ∧
    (∀ (i : ℕ) (h : i < renderSet.length),
      (frameBytes.drop (4 * i)).take 4 =
        [(renderSet.get ⟨i, h⟩).red, (renderSet.get ⟨i, h⟩).green,
         (renderSet.get ⟨i, h⟩).blue, 255]) ∧
    (∀ (i : ℕ) (h : i < renderSet.length),
      renderSet.get ⟨i, h⟩ =
        mandelbrot_calculate_point (pixelX0 i) (pixelY0 i)
          (Palette.generate MAX_ITERATIONS)) := by
  have hall : ∀ l ∈ renderSet.map Color.as_slice, l.length = 4 := by
    intro l hl
    obtain ⟨c, _, rfl⟩ := List.mem_map.mp hl
    rfl
  refine ⟨fun c => rfl, renderSet_length, ?_, ?_, renderSet_get⟩
  · unfold frameBytes
    rw [flatten_length_four _ hall, List.length_map, renderSet_length]
    ring
  · intro i h
    unfold frameBytes
    have hlen : i < (renderSet.map Color.as_slice).length := by
      rw [List.length_map]
      exact h
    rw [flatten_chunk _ hall i hlen, get_map_eq Color.as_slice renderSet i hlen h]
    rfl

lemma renderSet_pos : 0 < renderSet.length := by
  rw [renderSet_length]
  norm_num [WIDTH, HEIGHT]

theorem c9_pixel_buffer_witness :
    (frameBytes.drop (4 * 0)).take 4 =
      [(renderSet.get ⟨0, renderSet_pos⟩).red, (renderSet.get ⟨0, renderSet_pos⟩).green,
       (renderSet.get ⟨0, renderSet_pos⟩).blue, 255] :=
  c9_pixel_buffer.2.2.2.1 0 renderSet_pos

/-- C10: with the palette of size `max_iterations = 32`, both lookup
indices that `mandelbrot_calculate_point` produces — the `.min(31)`-clamped
truncation of the smoothed iteration and its successor — are strictly below
the palette length for every input, and the saturating float-to-usize
conversion maps every negative value to 0; so the vector indexing inside
`get_color` never goes out of bounds. -/
theorem c10_index_safety :
    (Palette.generate MAX_ITERATIONS).colors.length = MAX_ITERATIONS ∧
    (∀ x0 y0 : ℚ,
      min (f64ToUsize (smoothIter x0 y0)) (MAX_ITERATIONS - 1) <
        (Palette.generate MAX_ITERATIONS).colors.length ∧
      min (f64ToUsize (smoothIter x0 y0) + 1) (MAX_ITERATIONS - 1) <
        (Palette.generate MAX_ITERATIONS).colors.length) ∧
    (∀ r : ℝ, r < 0 → f64ToUsize r = 0) := by
  refine ⟨generate_length _, ?_, ?_⟩
  · intro x0 y0
    rw [generate_length]
    constructor <;>
      exact lt_of_le_of_lt (min_le_right _ _) (by norm_num [MAX_ITERATIONS])
  · intro r hr
    unfold f64ToUsize
    rw [f64Trunc_neg_eq (not_le.mpr hr)]
    exact Int.toNat_eq_zero.mpr (Int.ceil_le.mpr (by exact_mod_cast le_of_lt hr))

theorem c10_index_safety_witness :
    (-1 : ℝ) < 0 ∧ f64ToUsize (-1 : ℝ) = 0 :=
  ⟨neg_lt_zero.mpr one_pos, c10_index_safety.2.2 (-1) (neg_lt_zero.mpr one_pos)⟩

end Mandelbrot
